import Mathlib

/-!
# Feature pipeline and evaluation engine: a shallow embedding

Shallow embedding of the HR-attrition feature pipeline (CSV parser, schema
filter, categorical encoder, feature assembler, partitioner, numeric scaler)
and of the GRU classifier's evaluation metrics (confusion matrix, derived
scores, rank-based ROC AUC), together with theorems settling the claims of
the specification against the code.

JavaScript numbers are modelled as exact rationals (`ℚ`); the one genuinely
irrational operation, `Math.sqrt` inside the numeric scaler, is modelled over
`ℝ` with `Real.sqrt`.  Strings are Lean `String`s and the string operations
used by the code (`split`, `trim`, newline normalisation) are re-implemented
by structural recursion over the character list so that concrete runs reduce
inside the kernel.
-/

namespace HRA

/-! ## JavaScript string primitives -/

/-- Drop leading whitespace characters, as `String.prototype.trim` does on
the left end. -/
def dropLeadingWS : List Char → List Char
  | [] => []
  | c :: cs => if c.isWhitespace then dropLeadingWS cs else c :: cs

/-- `String.prototype.trim` on a character list: strip whitespace from both
ends. -/
def jsTrimList (l : List Char) : List Char :=
  dropLeadingWS (dropLeadingWS l.reverse).reverse

/-- `String.prototype.trim`. -/
def jsTrim (s : String) : String := ⟨jsTrimList s.data⟩

/-- `String.prototype.split` with a one-character separator.  Mirrors the
JavaScript semantics: splitting the empty string yields `[""]`. -/
def splitOnChar (d : Char) : List Char → List (List Char)
  | [] => [[]]
  | c :: cs =>
    match splitOnChar d cs with
    | [] => [[c]]
    | g :: gs => if c = d then [] :: g :: gs else (c :: g) :: gs

/-- `s.split(d)` for a single-character separator `d`. -/
def jsSplit (s : String) (d : Char) : List String :=
  (splitOnChar d s.data).map String.mk

/-- The composite of `text.replace(/\r\n/g,'\n').replace(/\r/g,'\n')`: every
`\r\n` pair and every remaining lone `\r` becomes a single `\n`. -/
def normNewlines : List Char → List Char
  | [] => []
  | '\r' :: '\n' :: cs => '\n' :: normNewlines cs
  | '\r' :: cs => '\n' :: normNewlines cs
  | c :: cs => c :: normNewlines cs

/-- `text.replace(/\r\n/g,'\n').replace(/\r/g,'\n').split('\n').filter(Boolean)`:
normalised lines with the empty (falsy) lines removed. -/
def jsLines (text : String) : List String :=
  ((splitOnChar '\n' (normNewlines text.data)).map String.mk).filter
    (fun s => s ≠ "")

/-! ## Records -/

/-- A parsed CSV record: column name to raw string value, in header order.
A JavaScript object literal built by successive assignments is modelled as an
association list in which a later entry for the same key wins. -/
abbrev Record := List (String × String)

/-- Property lookup `r[k]`: `some` value of the last entry for `k`, `none`
when the key is absent (JavaScript `undefined`). -/
def rlookup (r : Record) (k : String) : Option String :=
  (r.reverse.find? (fun p => p.1 == k)).map (·.2)

/-- The record built from one data line: `obj[headers[j]] = parts[j].trim()`. -/
def mkRecord (headers parts : List String) : Record :=
  headers.zip (parts.map jsTrim)

/-! ## The tabular parser (`#parseCSV`, identical in both loader variants) -/

/-- The row loop of `#parseCSV`: a data line whose comma-split field count
differs from the header's is skipped (`continue`), every other line becomes
exactly one record. -/
def parseRows (headers : List String) : List String → List Record
  | [] => []
  | l :: ls =>
    let parts := jsSplit l ','
    if parts.length = headers.length then
      mkRecord headers parts :: parseRows headers ls
    else parseRows headers ls

/-- `#parseCSV`: normalise newlines, drop empty lines, fail when fewer than
two lines remain, otherwise read the trimmed header from the first line and
the records from the rest. -/
def parseCSV (text : String) : Except String (List String × List Record) :=
  match jsLines text with
  | h :: d :: rest =>
    let headers := (jsSplit h ',').map jsTrim
    .ok (headers, parseRows headers (d :: rest))
  | _ => .error "CSV has no data."

/-! ## JavaScript number conversion

`Number(x)` as used by the loaders: `Number("")` is `0`, a decimal literal
(optional sign, digits, optional fractional digits, surrounding whitespace)
parses exactly, and anything else is `NaN`, modelled as `none`. -/

/-- Decimal digit value. -/
def digitVal (c : Char) : Option ℕ :=
  if c.isDigit then some (c.toNat - 48) else none

/-- A nonempty all-digit character run as a natural number. -/
def parseNatDigits (l : List Char) : Option ℕ :=
  if l = [] then none
  else
    l.foldl
      (fun acc c =>
        match acc, digitVal c with
        | some n, some d => some (10 * n + d)
        | _, _ => none)
      (some 0)

/-- An unsigned decimal literal `digits` or `digits.digits`. -/
def parseDecimal (l : List Char) : Option ℚ :=
  match splitOnChar '.' l with
  | [w] => (parseNatDigits w).map (fun n => (n : ℚ))
  | [w, f] =>
    match parseNatDigits w, parseNatDigits f with
    | some n, some m => some ((n : ℚ) + (m : ℚ) / (10 : ℚ) ^ f.length)
    | _, _ => none
  | _ => none

/-- `Number(s)` for a string `s`, on the fragment of syntax the dataset
exercises. -/
def parseJSNumber (s : String) : Option ℚ :=
  match jsTrimList s.data with
  | [] => some 0
  | '-' :: rest => (parseDecimal rest).map Neg.neg
  | '+' :: rest => parseDecimal rest
  | t => parseDecimal t

/-- `Number(r[col] ?? 0)` guarded by `Number.isFinite`, i.e. the numeric-cell
policy of `#rowToFeatures`: absent key gives `0`, a parse failure (`NaN`)
gives `0`. -/
def numOrZero (o : Option String) : ℚ :=
  match o with
  | none => 0
  | some s => (parseJSNumber s).getD 0

/-! ## Categorical encoder (`#fitCategoricals`) -/

/-- Insert into a JavaScript `Set`: keep insertion order, ignore repeats. -/
def seenInsert (l : List String) (v : String) : List String :=
  if v ∈ l then l else l ++ [v]

/-- The distinct values of a list in first-appearance order
(`Array.from(set.values())`). -/
def distinctVals (vals : List String) : List String :=
  vals.foldl seenInsert []

/-- Stable insertion into a sorted list, used to model
`Array.prototype.sort`'s ascending string order. -/
def insertLeB {α : Type} (le : α → α → Bool) (x : α) : List α → List α
  | [] => [x]
  | y :: ys => if le x y then x :: y :: ys else y :: insertLeB le x ys

/-- Stable insertion sort by a boolean `le`. -/
def insertionSort {α : Type} (le : α → α → Bool) : List α → List α
  | [] => []
  | x :: xs => insertLeB le x (insertionSort le xs)

/-- Lexicographic code-unit comparison of character lists: the order used by
`Array.prototype.sort`'s default comparator (UTF-16 code units, which agree
with code points on this dataset's alphabet). -/
def strLeList : List Char → List Char → Bool
  | [], _ => true
  | _ :: _, [] => false
  | a :: as, b :: bs =>
    if a.toNat < b.toNat then true
    else if b.toNat < a.toNat then false
    else strLeList as bs

/-- Code-unit-lexicographic string comparison. -/
def strLe (a b : String) : Bool := strLeList a.data b.data

/-- One category encoding: the lexicographically sorted list of distinct raw
values of a column; the encoder maps a value to its position in this list. -/
def colCategories (rows : List Record) (c : String) : List String :=
  insertionSort strLe
    (distinctVals (rows.map (fun r => (rlookup r c).getD "")))

/-- `#fitCategoricals`: one encoding per categorical column, in column
order. -/
def fitCategoricals (catCols : List String) (rows : List Record) :
    List (String × List String) :=
  catCols.map (fun c => (c, colCategories rows c))

/-- The expanded feature-name list: numeric columns first, then
`"<col>__<value>"` for every category of every categorical column, in
encoder (sorted-key) order. -/
def featureOrderOf (numCols : List String) (encs : List (String × List String)) :
    List String :=
  numCols ++ encs.flatMap (fun p => p.2.map (fun v => p.1 ++ "__" ++ v))

/-- `enc[v]`: the index assigned to value `v`, when it was seen during
fitting. -/
def encIndex (cats : List String) (v : String) : Option ℕ :=
  cats.indexOf? v

/-- A one-hot block of length `k`, active at `idx` when present. -/
def oneHot (k : ℕ) (idx : Option ℕ) : List ℚ :=
  (List.range k).map (fun i => if idx = some i then (1 : ℚ) else 0)

/-! ## Labels and feature assembly (`#rowToFeatures`) -/

/-- The two-entry attrition map `{ Yes: 1, No: 0 }` as a lookup. -/
def attritionMap (v : String) : Option ℕ :=
  if v = "Yes" then some 1 else if v = "No" then some 0 else none

/-- `this.attritionMap[String(r[labelKey] || 'No')] ?? 0`: an absent label
and the (falsy) empty string fall back to `"No"`; an unknown value falls
through the map to `0`. -/
def rowLabel (r : Record) (labelKey : String) : ℕ :=
  let v := (rlookup r labelKey).getD ""
  (attritionMap (if v = "" then "No" else v)).getD 0

/-- `#rowToFeatures`: numeric cells in numeric-column order, then each
categorical column's one-hot block, plus the binary label. -/
def rowToFeatures (numCols : List String) (encs : List (String × List String))
    (labelKey : String) (r : Record) : List ℚ × ℕ :=
  (numCols.map (fun c => numOrZero (rlookup r c)) ++
     encs.flatMap (fun p => oneHot p.2.length (encIndex p.2 ((rlookup r p.1).getD ""))),
   rowLabel r labelKey)

/-! ## DataLoader state

The mutable instance fields of `DataLoader`, threaded explicitly.  The code
stores the scaler's standard deviation `std = Math.sqrt(max(1e-9, var))`; we
carry the radicand `stdSq = max(1e-9, var)` (a rational), and take the real
square root at application time. -/

structure DLState where
  headers : List String
  raw : List Record
  numCols : List String
  catKnown : List String
  labelKey : String
  catCols : List String
  encoders : List (String × List String)
  featureOrder : List String
  scaler : Option (List (ℚ × ℚ))
  deriving Repr, DecidableEq

/-- `fromFile` past the text read: parse, check the label column, resolve the
categorical columns from the known allow-list in header order, and keep only
allowed keys of each record. -/
def loadText (numCols catKnown : List String) (labelKey : String)
    (text : String) : Except String DLState :=
  match parseCSV text with
  | .error e => .error e
  | .ok (headers, rows) =>
    if labelKey ∈ headers then
      let catCols := headers.filter (fun h => h ∈ catKnown)
      let allowed := numCols ++ catCols ++ [labelKey]
      let raw := rows.map (fun r => r.filter (fun p => p.1 ∈ allowed))
      .ok
        { headers := headers, raw := raw, numCols := numCols,
          catKnown := catKnown, labelKey := labelKey, catCols := catCols,
          encoders := [], featureOrder := [], scaler := none }
    else .error ("Missing required column: " ++ labelKey)

/-! ## Deterministic shuffle (`#deterministicShuffleIndex`) -/

/-- One step of the inline linear congruential generator:
`seed = (seed*1664525 + 1013904223) % 2**32`. -/
def lcgNext (s : ℕ) : ℕ := (s * 1664525 + 1013904223) % 2 ^ 32

/-- Swap positions `i` and `j` of a list; out-of-range indices leave the list
unchanged (they never occur in the shuffle). -/
def listSwap (l : List ℕ) (i j : ℕ) : List ℕ :=
  match l[i]?, l[j]? with
  | some x, some y => (l.set i y).set j x
  | _, _ => l

/-- The Fisher–Yates loop `for (i = n-1; i > 0; i--)`, with
`j = Math.floor(rand() * (i+1))` computed in exact arithmetic as
`seed * (i+1) / 2**32` (the double-precision evaluation is exact for every
index range the loader can produce). -/
def fyLoop : ℕ → ℕ → List ℕ → List ℕ
  | 0, _, a => a
  | i + 1, seed, a =>
    let s := lcgNext seed
    let j := s * (i + 2) / 2 ^ 32
    fyLoop i s (listSwap a (i + 1) j)

/-- `#deterministicShuffleIndex(n)`: Fisher–Yates over `0..n-1` with the
fixed seed `1337`. -/
def deterministicShuffleIndex (n : ℕ) : List ℕ :=
  fyLoop (n - 1) 1337 (List.range n)

/-! ## Split arithmetic -/

/-- `Math.min(Math.max(x, lo), hi)`. -/
def clampQ (x lo hi : ℚ) : ℚ := min (max x lo) hi

/-- `Math.floor` of a nonnegative rational, as a natural number. -/
def floorNN (x : ℚ) : ℕ := (⌊x⌋).toNat

/-- The evaluation-partition size of the shuffle-mode loader:
`Math.max(1, Math.floor(n * Math.min(Math.max(testSplit, 0.05), 0.9)))`. -/
def nTestOf (n : ℕ) (f : ℚ) : ℕ :=
  max 1 (floorNN ((n : ℚ) * clampQ f (5 / 100) (9 / 10)))

/-! ## Numeric scaler (`#fitScaler`) -/

/-- The epsilon floor `1e-9` under the square root. -/
def epsQ : ℚ := 1 / 10 ^ 9

/-- Cell `j` of row `r`, reading `0` beyond the row's length (rows produced
by `#rowToFeatures` all have the full feature width, so the default is never
read). -/
def cellAt (r : List ℚ) (j : ℕ) : ℚ := r.getD j 0

/-- Column `j` of a feature matrix. -/
def colOf (X : List (List ℚ)) (j : ℕ) : List ℚ := X.map (fun r => cellAt r j)

/-- `#fitScaler(X)`: per feature dimension `j`, the population mean
`s/n` and the radicand `max(1e-9, s2/n - mean²)` of the standard deviation,
with `n = X.length || 1`. -/
def fitScaler (X : List (List ℚ)) : List (ℚ × ℚ) :=
  let d := (X.headD []).length
  let n : ℚ := if X.length = 0 then 1 else (X.length : ℚ)
  (List.range d).map (fun j =>
    let s := (colOf X j).sum
    let s2 := ((colOf X j).map (fun v => v * v)).sum
    let mean := s / n
    (mean, max epsQ (s2 / n - mean * mean)))

/-- `#applyScaler` on a single row: `(v - mean[j]) / std[j]`, with
`std[j] = Math.sqrt(stdSq[j])`.  Real-valued because of the square root. -/
noncomputable def applyScalerRow (sc : List (ℚ × ℚ)) (row : List ℚ) :
    List ℝ :=
  row.mapIdx (fun j (v : ℚ) =>
    ((v : ℝ) - ((sc.getD j (0, 1)).1 : ℝ)) / Real.sqrt ((sc.getD j (0, 1)).2 : ℝ))

/-- `#applyScaler` on a matrix. -/
noncomputable def applyScalerR (sc : List (ℚ × ℚ)) (X : List (List ℚ)) :
    List (List ℝ) :=
  X.map (applyScalerRow sc)

/-! ## Column statistics of the scaler, in closed form

The per-dimension quantities `#fitScaler` computes, expressed directly over
one column, and the column after scaling. -/

/-- The population mean `s/n` of a column. -/
def meanQ (l : List ℚ) : ℚ := l.sum / l.length

/-- The population variance `s2/n - mean²` of a column. -/
def varQ (l : List ℚ) : ℚ :=
  (l.map (fun v => v * v)).sum / l.length - meanQ l * meanQ l

/-- The radicand `max(1e-9, var)` of the stored standard deviation. -/
def stdSqQ (l : List ℚ) : ℚ := max epsQ (varQ l)

/-- A rational column viewed over the reals. -/
noncomputable def castList (l : List ℚ) : List ℝ :=
  l.map (fun x : ℚ => (x : ℝ))

/-- A training column after standardisation by its own fitted statistics:
`(x - mean) / sqrt(max(1e-9, var))`. -/
noncomputable def scaledCol (l : List ℚ) : List ℝ :=
  (castList l).map (fun x => (x - (meanQ l : ℝ)) / Real.sqrt (stdSqQ l : ℝ))

/-- Mean of a real column. -/
noncomputable def meanR (l : List ℝ) : ℝ := l.sum / l.length

/-- Population variance of a real column. -/
noncomputable def varR (l : List ℝ) : ℝ :=
  (l.map (fun v => v * v)).sum / l.length - meanR l * meanR l

/-- Column `j` of a real matrix. -/
noncomputable def colOfR (X : List (List ℝ)) (j : ℕ) : List ℝ :=
  X.map (fun r => r.getD j 0)

/-! ## `prepareTensors` — shuffle-mode loader -/

/-- The (unscaled) outcome of the shuffle-mode `prepareTensors`: the two
index partitions, the corresponding raw feature and label matrices, the
fitted scaler, and the reported feature order.  The returned tensors of the
code are `applyScalerR scaler` of `Xtr` and `Xte`. -/
structure PrepOut where
  trainIdx : List ℕ
  testIdx : List ℕ
  Xtr : List (List ℚ)
  ytr : List (List ℕ)
  Xte : List (List ℚ)
  yte : List (List ℕ)
  scaler : List (ℚ × ℚ)
  featureOrder : List String
  deriving Repr, DecidableEq

/-- Shuffle-mode `prepareTensors`: fit encoders on the full record list,
assemble all feature vectors, deterministically shuffle the index range,
split at `n - nTest`, fit the scaler on the training slice only, and replace
the loader's encoder/featureOrder/scaler state. -/
def prepareTensors2 (st : DLState) (testSplit : ℚ) :
    Except String (PrepOut × DLState) :=
  if st.raw = [] then .error "Dataset not loaded."
  else
    let encs := fitCategoricals st.catCols st.raw
    let fOrder := featureOrderOf st.numCols encs
    let pairs := st.raw.map (rowToFeatures st.numCols encs st.labelKey)
    let feats := pairs.map (·.1)
    let labels := pairs.map (·.2)
    let n := feats.length
    let idx := deterministicShuffleIndex n
    let nTest := nTestOf n testSplit
    let nTrain := n - nTest
    let trainIdx := idx.take nTrain
    let testIdx := idx.drop nTrain
    let Xtr := trainIdx.map (fun i => feats.getD i [])
    let ytr := trainIdx.map (fun i => [labels.getD i 0])
    let Xte := testIdx.map (fun i => feats.getD i [])
    let yte := testIdx.map (fun i => [labels.getD i 0])
    let sc := fitScaler Xtr
    .ok
      ({ trainIdx := trainIdx, testIdx := testIdx, Xtr := Xtr, ytr := ytr,
         Xte := Xte, yte := yte, scaler := sc, featureOrder := fOrder },
       { st with encoders := encs, featureOrder := fOrder, scaler := some sc })

/-! ## `prepareTensors` — chronological/windowed loader -/

/-- The proxy-time sort key of one record:
`(Number(r.YearsAtCompany ?? 0), Number(r.EmployeeNumber ?? 0))`. -/
def chronoKey (r : Record) : ℚ × ℚ :=
  (numOrZero (rlookup r "YearsAtCompany"), numOrZero (rlookup r "EmployeeNumber"))

/-- `[...raw].sort(...)`: stable ascending sort by the chronological key. -/
def sortChrono (rows : List Record) : List Record :=
  insertionSort (fun a b => decide (chronoKey a ≤ chronoKey b)) rows

/-- The number of sliding windows of length `S` over `len` rows: the indices
`i` with `i + S - 1 < len`. -/
def windowCount (S len : ℕ) : ℕ := if S ≤ len then len - S + 1 else 0

/-- The sliding windows `feats.slice(i, i+S)` and per-window labels
`[labels[i+S-1]]`. -/
def windowsOf (S : ℕ) (feats : List (List ℚ)) (labels : List ℕ) :
    List (List (List ℚ)) × List (List ℕ) :=
  let m := windowCount S feats.length
  ((List.range m).map (fun i => (feats.drop i).take S),
   (List.range m).map (fun i => [labels.getD (i + S - 1) 0]))

/-- `#fitScalers` of the windowed loader: flatten all training windows into
one row list and compute the same per-dimension statistics as `fitScaler`. -/
def fitScalers1 (X : List (List (List ℚ))) : List (ℚ × ℚ) :=
  fitScaler X.flatten

/-- The windowed loader's effective test fraction:
`Number(testSplit) / 100 || testSplit` (the fallback fires only when the
quotient is `0`, i.e. when `testSplit` itself is `0`). -/
def effSplit1 (f : ℚ) : ℚ := if f / 100 = 0 then f else f / 100

/-- The evaluation-partition size of the windowed loader. -/
def nTestOf1 (n : ℕ) (f : ℚ) : ℕ :=
  max 1 (floorNN ((n : ℚ) * clampQ (effSplit1 f) (5 / 100) (9 / 10)))

/-- The (unscaled) outcome of the windowed `prepareTensors`; the feature
matrices are three-dimensional (`[window][timestep][feature]`). -/
structure PrepOut1 where
  Xtr : List (List (List ℚ))
  ytr : List (List ℕ)
  Xte : List (List (List ℚ))
  yte : List (List ℕ)
  scaler : List (ℚ × ℚ)
  featureOrder : List String
  deriving Repr, DecidableEq

/-- Windowed `prepareTensors`: sort chronologically, fit encoders, assemble,
form sliding windows of length `S = Math.max(1, seqLen|0)`, split the window
sequence by position, fit scalers on the training windows only, and replace
the loader's encoder/featureOrder/scaler state. -/
def prepareTensors1 (st : DLState) (seqLen : ℤ) (testSplit : ℚ) :
    Except String (PrepOut1 × DLState) :=
  if st.raw = [] then .error "Dataset not loaded."
  else
    let sorted := sortChrono st.raw
    let encs := fitCategoricals st.catCols sorted
    let fOrder := featureOrderOf st.numCols encs
    let pairs := sorted.map (rowToFeatures st.numCols encs st.labelKey)
    let feats := pairs.map (·.1)
    let labels := pairs.map (·.2)
    let S := (max 1 seqLen).toNat
    let wins := windowsOf S feats labels
    let n := wins.1.length
    let nTest := nTestOf1 n testSplit
    let nTrain := n - nTest
    let Xtr := wins.1.take nTrain
    let ytr := wins.2.take nTrain
    let Xte := wins.1.drop nTrain
    let yte := wins.2.drop nTrain
    let sc := fitScalers1 Xtr
    .ok
      ({ Xtr := Xtr, ytr := ytr, Xte := Xte, yte := yte, scaler := sc,
         featureOrder := fOrder },
       { st with encoders := encs, featureOrder := fOrder, scaler := some sc })

/-! ## Named views of the two pipelines

The successive `let` bindings of the two `prepareTensors` bodies, as
standalone definitions (definitionally equal to the bindings they name), so
that theorems can speak about the intermediate stages. -/

/-- The encoders fitted by the shuffle-mode `prepareTensors`. -/
def prepEncs2 (st : DLState) : List (String × List String) :=
  fitCategoricals st.catCols st.raw

/-- The assembled feature vectors of the shuffle-mode pipeline. -/
def prepFeats2 (st : DLState) : List (List ℚ) :=
  (st.raw.map (rowToFeatures st.numCols (prepEncs2 st) st.labelKey)).map (·.1)

/-- The assembled labels of the shuffle-mode pipeline. -/
def prepLabels2 (st : DLState) : List ℕ :=
  (st.raw.map (rowToFeatures st.numCols (prepEncs2 st) st.labelKey)).map (·.2)

/-- The example count `n` of the shuffle-mode pipeline. -/
def prepN2 (st : DLState) : ℕ := (prepFeats2 st).length

/-- The training-partition size `nTrain = n - nTest`. -/
def nTrain2 (st : DLState) (f : ℚ) : ℕ := prepN2 st - nTestOf (prepN2 st) f

/-- The shuffled training index list `idx.slice(0, nTrain)`. -/
def trainIdx2 (st : DLState) (f : ℚ) : List ℕ :=
  (deterministicShuffleIndex (prepN2 st)).take (nTrain2 st f)

/-- The shuffled evaluation index list `idx.slice(nTrain)`. -/
def testIdx2 (st : DLState) (f : ℚ) : List ℕ :=
  (deterministicShuffleIndex (prepN2 st)).drop (nTrain2 st f)

/-- The training feature matrix of the shuffle-mode pipeline. -/
def Xtr2 (st : DLState) (f : ℚ) : List (List ℚ) :=
  (trainIdx2 st f).map (fun i => (prepFeats2 st).getD i [])

/-- The evaluation feature matrix of the shuffle-mode pipeline. -/
def Xte2 (st : DLState) (f : ℚ) : List (List ℚ) :=
  (testIdx2 st f).map (fun i => (prepFeats2 st).getD i [])

/-- The full shuffle-mode output record. -/
def out2 (st : DLState) (f : ℚ) : PrepOut :=
  { trainIdx := trainIdx2 st f, testIdx := testIdx2 st f,
    Xtr := Xtr2 st f,
    ytr := (trainIdx2 st f).map (fun i => [(prepLabels2 st).getD i 0]),
    Xte := Xte2 st f,
    yte := (testIdx2 st f).map (fun i => [(prepLabels2 st).getD i 0]),
    scaler := fitScaler (Xtr2 st f),
    featureOrder := featureOrderOf st.numCols (prepEncs2 st) }

/-- The post-call loader state of the shuffle-mode pipeline. -/
def state2 (st : DLState) (f : ℚ) : DLState :=
  { st with encoders := prepEncs2 st,
            featureOrder := featureOrderOf st.numCols (prepEncs2 st),
            scaler := some (fitScaler (Xtr2 st f)) }

/-- The chronologically sorted records of the windowed pipeline. -/
def sorted1 (st : DLState) : List Record := sortChrono st.raw

/-- The encoders fitted by the windowed `prepareTensors` (on the sorted
records). -/
def prepEncs1 (st : DLState) : List (String × List String) :=
  fitCategoricals st.catCols (sorted1 st)

/-- The assembled feature vectors of the windowed pipeline. -/
def prepFeats1 (st : DLState) : List (List ℚ) :=
  ((sorted1 st).map (rowToFeatures st.numCols (prepEncs1 st) st.labelKey)).map (·.1)

/-- The assembled labels of the windowed pipeline. -/
def prepLabels1 (st : DLState) : List ℕ :=
  ((sorted1 st).map (rowToFeatures st.numCols (prepEncs1 st) st.labelKey)).map (·.2)

/-- The window length `S = Math.max(1, seqLen|0)`. -/
def S1 (seqLen : ℤ) : ℕ := (max 1 seqLen).toNat

/-- The windowed sequences and their labels. -/
def wins1 (st : DLState) (seqLen : ℤ) :
    List (List (List ℚ)) × List (List ℕ) :=
  windowsOf (S1 seqLen) (prepFeats1 st) (prepLabels1 st)

/-- The window count `n` of the windowed pipeline. -/
def prepN1 (st : DLState) (seqLen : ℤ) : ℕ := (wins1 st seqLen).1.length

/-- The training-partition size of the windowed pipeline. -/
def nTrain1 (st : DLState) (seqLen : ℤ) (f : ℚ) : ℕ :=
  prepN1 st seqLen - nTestOf1 (prepN1 st seqLen) f

/-- The training windows of the windowed pipeline. -/
def Xtr1 (st : DLState) (seqLen : ℤ) (f : ℚ) : List (List (List ℚ)) :=
  (wins1 st seqLen).1.take (nTrain1 st seqLen f)

/-- The evaluation windows of the windowed pipeline. -/
def Xte1 (st : DLState) (seqLen : ℤ) (f : ℚ) : List (List (List ℚ)) :=
  (wins1 st seqLen).1.drop (nTrain1 st seqLen f)

/-- The full windowed-mode output record. -/
def out1 (st : DLState) (seqLen : ℤ) (f : ℚ) : PrepOut1 :=
  { Xtr := Xtr1 st seqLen f,
    ytr := (wins1 st seqLen).2.take (nTrain1 st seqLen f),
    Xte := Xte1 st seqLen f,
    yte := (wins1 st seqLen).2.drop (nTrain1 st seqLen f),
    scaler := fitScalers1 (Xtr1 st seqLen f),
    featureOrder := featureOrderOf st.numCols (prepEncs1 st) }

/-- The post-call loader state of the windowed pipeline. -/
def state1 (st : DLState) (seqLen : ℤ) (f : ℚ) : DLState :=
  { st with encoders := prepEncs1 st,
            featureOrder := featureOrderOf st.numCols (prepEncs1 st),
            scaler := some (fitScalers1 (Xtr1 st seqLen f)) }

/-! ## Metrics engine (`GRUClassifier.evaluate` and `#rocAuc`) -/

/-- The four confusion-matrix counters. -/
structure CM where
  tp : ℕ
  tn : ℕ
  fp : ℕ
  fn : ℕ
  deriving Repr, DecidableEq

/-- `yProb.greaterEqual(threshold).toInt()` on one probability. -/
def predBin (thr p : ℚ) : ℕ := if thr ≤ p then 1 else 0

/-- The confusion matrix of `evaluate`: elementwise comparison of the
thresholded predictions against the true labels. -/
def confusion (yTrue : List ℕ) (yProb : List ℚ) (thr : ℚ) : CM :=
  let pairs := yTrue.zip yProb
  { tp := (pairs.filter (fun q => q.1 == 1 && predBin thr q.2 == 1)).length,
    tn := (pairs.filter (fun q => q.1 == 0 && predBin thr q.2 == 0)).length,
    fp := (pairs.filter (fun q => q.1 == 0 && predBin thr q.2 == 1)).length,
    fn := (pairs.filter (fun q => q.1 == 1 && predBin thr q.2 == 0)).length }

/-- `acc = (tp + tn) / Math.max(1, tp + tn + fp + fn)`. -/
def accOf (c : CM) : ℚ :=
  ((c.tp : ℚ) + c.tn) / max 1 ((c.tp : ℚ) + c.tn + c.fp + c.fn)

/-- `prec = tp / Math.max(1, tp + fp)`. -/
def precOf (c : CM) : ℚ := (c.tp : ℚ) / max 1 ((c.tp : ℚ) + c.fp)

/-- `rec = tp / Math.max(1, tp + fn)`. -/
def recOf (c : CM) : ℚ := (c.tp : ℚ) / max 1 ((c.tp : ℚ) + c.fn)

/-- `f1 = 2*prec*rec / Math.max(1e-9, prec + rec)`. -/
def f1Of (c : CM) : ℚ :=
  2 * precOf c * recOf c / max epsQ (precOf c + recOf c)

/-- The descending walk of `#rocAuc`: consume the sorted `(p, y)` pairs,
update the running `tp`/`fp` counters, and emit one
`(fpr, tpr) = (fp/max(1,N), tp/max(1,P))` point per pair. -/
def rocWalk (P N : ℕ) : ℕ → ℕ → List ℕ → List (ℚ × ℚ)
  | _, _, [] => []
  | tp, fp, y :: ys =>
    let tp' := if y = 1 then tp + 1 else tp
    let fp' := if y = 1 then fp else fp + 1
    ((fp' : ℚ) / max 1 (N : ℚ), (tp' : ℚ) / max 1 (P : ℚ)) ::
      rocWalk P N tp' fp' ys

/-- The trapezoidal sum `Σ (x2 - x1) * (y1 + y2) / 2` over consecutive ROC
points. -/
def trapezoid : List (ℚ × ℚ) → ℚ
  | [] => 0
  | [_] => 0
  | p1 :: p2 :: rest =>
    (p2.1 - p1.1) * (p1.2 + p2.2) / 2 + trapezoid (p2 :: rest)

/-- `#rocAuc(yTrue, yProb)`: pair labels with probabilities, sort by
probability descending (stably, as `Array.prototype.sort` is stable), walk
the pairs emitting ROC points between `(0,0)` and an appended `(1,1)`,
integrate by trapezoids, clamp into `[0,1]`, and return one minus the
result (the code's final `return 1 - Math.min(1, Math.max(0, auc))`). -/
def rocAuc (yT : List ℕ) (yP : List ℚ) : ℚ :=
  let pairs := yP.zip yT
  let sorted := insertionSort (fun a b => decide (b.1 ≤ a.1)) pairs
  let P := (yT.filter (fun v => v == 1)).length
  let N := yT.length - P
  let roc := (0, 0) :: rocWalk P N 0 0 (sorted.map (·.2)) ++ [(1, 1)]
  let auc := trapezoid roc
  1 - min 1 (max 0 auc)

/-- The full result record of `evaluate` (the source's field `rec` is a
reserved name in Lean and is called `recl` here). -/
structure EvalOut where
  acc : ℚ
  prec : ℚ
  recl : ℚ
  f1 : ℚ
  auc : ℚ
  cm : CM
  deriving Repr, DecidableEq

/-- `evaluate({xTest, yTest, threshold})` downstream of `predict`: the
confusion matrix of the thresholded probabilities, the four derived scores,
and the rank-based AUC of the raw probabilities. -/
def evaluateMetrics (yTrue : List ℕ) (yProb : List ℚ) (thr : ℚ) : EvalOut :=
  let c := confusion yTrue yProb thr
  { acc := accOf c, prec := precOf c, recl := recOf c, f1 := f1Of c,
    auc := rocAuc yTrue yProb, cm := c }

/-- A concrete loaded dataset with a single record, used to exercise the
too-small-dataset behaviour. -/
def oneRecState : DLState :=
  { headers := ["Attrition"], raw := [[("Attrition", "Yes")]],
    numCols := [], catKnown := [], labelKey := "Attrition",
    catCols := [], encoders := [], featureOrder := [], scaler := none }

/-- A concrete loaded dataset with three records, used to exercise the
windowed split arithmetic. -/
def threeRecState : DLState :=
  { headers := ["Attrition"],
    raw := [[("Attrition", "Yes")], [("Attrition", "No")], [("Attrition", "No")]],
    numCols := [], catKnown := [], labelKey := "Attrition",
    catCols := [], encoders := [], featureOrder := [], scaler := none }

/-! ## Success equations of the two pipelines -/

/-- On a loaded dataset the shuffle-mode `prepareTensors` succeeds and
returns exactly the named stages. -/
theorem prepareTensors2_ok (st : DLState) (f : ℚ) (h : ¬st.raw = []) :
    prepareTensors2 st f = .ok (out2 st f, state2 st f) := by
  rw [prepareTensors2, if_neg h]; rfl

/-- On a loaded dataset the windowed `prepareTensors` succeeds and returns
exactly the named stages. -/
theorem prepareTensors1_ok (st : DLState) (seqLen : ℤ) (f : ℚ)
    (h : ¬st.raw = []) :
    prepareTensors1 st seqLen f = .ok (out1 st seqLen f, state1 st seqLen f) := by
  rw [prepareTensors1, if_neg h]; rfl

/-! ## Claim theorems: the metrics engine -/

/-- C1.  On `yTrue = [1,0,1,0]`, `yProb = [0.9,0.1,0.8,0.2]`, threshold
`0.5`, `evaluate` produces the confusion matrix `{tp:2, tn:2, fp:0, fn:0}`
and `accuracy = precision = recall = f1 = 1`, as the claim states — but the
returned ROC AUC is `0`, not the claimed `1`: the trapezoidal walk already
yields the properly oriented value `1`, and the final
`return 1 - Math.min(1, Math.max(0, auc))` of `#rocAuc` inverts it. -/
theorem claim1_evaluate_concrete :
    evaluateMetrics [1, 0, 1, 0] [9/10, 1/10, 8/10, 2/10] (1/2) =
      { acc := 1, prec := 1, recl := 1, f1 := 1, auc := 0,
        cm := { tp := 2, tn := 2, fp := 0, fn := 0 } } := by
  norm_num [evaluateMetrics, confusion, accOf, precOf, recOf, f1Of, rocAuc, predBin,
    epsQ, insertionSort, insertLeB, rocWalk, trapezoid, min_def, max_def]

/-- C2.  The AUC boundary cases come out inverted: a perfect separator (all
positive probabilities strictly above all negative ones) makes `#rocAuc`
return `0`, and a perfectly inverted ranking makes it return `1` — the exact
opposite of the claim, again because of the final `1 - clamp(auc)`. -/
theorem claim2_rocAuc_boundaries_flipped :
    rocAuc [1, 0] [9/10, 1/10] = 0 ∧
    rocAuc [1, 1, 0] [9/10, 8/10, 1/10] = 0 ∧
    rocAuc [1, 0] [1/10, 9/10] = 1 ∧
    rocAuc [0, 1, 1] [9/10, 2/10, 1/10] = 1 := by
  refine ⟨?_, ?_, ?_, ?_⟩ <;>
    norm_num [rocAuc, insertionSort, insertLeB, rocWalk, trapezoid, min_def, max_def]

/-! ## Claim theorems: labels and feature assembly -/

/-- C8.  The derived label is `1` exactly when the label column holds the
raw string `"Yes"` (an absent column and the empty string fall back to
`"No"`, every other value falls through the two-entry map to `0`); the label
reported by feature assembly is this value, and it is always `0` or `1`. -/
theorem claim8_label_mapping (r : Record) (k : String)
    (numCols : List String) (encs : List (String × List String)) :
    rowLabel r k = (if rlookup r k = some "Yes" then 1 else 0)
    ∧ (rowToFeatures numCols encs k r).2 = rowLabel r k
    ∧ (rowLabel r k = 0 ∨ rowLabel r k = 1) := by
  have h1 : rowLabel r k = (if rlookup r k = some "Yes" then 1 else 0) := by
    rcases h : rlookup r k with _ | v
    · simp [rowLabel, attritionMap, h]
    · by_cases hv : v = ""
      · subst hv; simp [rowLabel, attritionMap, h]
      · by_cases hy : v = "Yes"
        · subst hy; simp [rowLabel, attritionMap, h]
        · by_cases hn : v = "No" <;>
            simp [rowLabel, attritionMap, h, hv, hy, hn]
  refine ⟨h1, rfl, ?_⟩
  rw [h1]; split <;> simp

/-- C7.  The concrete schema scenario: configuring `A` as the (sole) numeric
column and `B` as a known-categorical column, loading the two-row CSV
produces the expected state, fitting yields the two-category encoder for
`B`, `featureOrder = ["A", "B__x", "B__y"]`, and the first row assembles to
`([1, 1, 0], 1)` (and the second to `([2, 0, 1], 0)`). -/
theorem claim7_concrete_fit_and_assemble :
    (loadText ["A"] ["B"] "Attrition" "A,B,Attrition\n1,x,Yes\n2,y,No").toOption =
      some
        { headers := ["A", "B", "Attrition"],
          raw := [[("A", "1"), ("B", "x"), ("Attrition", "Yes")],
                  [("A", "2"), ("B", "y"), ("Attrition", "No")]],
          numCols := ["A"], catKnown := ["B"], labelKey := "Attrition",
          catCols := ["B"], encoders := [], featureOrder := [], scaler := none }
    ∧ fitCategoricals ["B"]
        [[("A", "1"), ("B", "x"), ("Attrition", "Yes")],
         [("A", "2"), ("B", "y"), ("Attrition", "No")]] = [("B", ["x", "y"])]
    ∧ featureOrderOf ["A"] [("B", ["x", "y"])] = ["A", "B__x", "B__y"]
    ∧ rowToFeatures ["A"] [("B", ["x", "y"])] "Attrition"
        [("A", "1"), ("B", "x"), ("Attrition", "Yes")] = ([1, 1, 0], 1)
    ∧ rowToFeatures ["A"] [("B", ["x", "y"])] "Attrition"
        [("A", "2"), ("B", "y"), ("Attrition", "No")] = ([2, 0, 1], 0) := by
  refine ⟨by decide, by decide, by decide, ?_, ?_⟩ <;>
    simp +decide [rowToFeatures, numOrZero, parseJSNumber, parseDecimal,
      parseNatDigits, digitVal, jsTrimList, dropLeadingWS, splitOnChar, oneHot,
      encIndex, rowLabel, attritionMap, rlookup, List.range, List.range.loop]

/-! ## Claim theorems: the parser -/

/-- Helper: the row loop of the parser is the filter of the data lines whose
field count matches the header's, each mapped to its record. -/
theorem parseRows_eq_filter_map (hs : List String) (ls : List String) :
    parseRows hs ls =
      (ls.filter (fun l => (jsSplit l ',').length == hs.length)).map
        (fun l => mkRecord hs (jsSplit l ',')) := by
  induction ls with
  | nil => rfl
  | cons l ls ih =>
    by_cases h : (jsSplit l ',').length = hs.length <;>
      simp [parseRows, h, ih]

/-- C9.  The parser fails (with its single `FormatError`) exactly when fewer
than two nonempty lines remain after newline normalisation, and on success
the records are precisely the surviving data lines — those whose
comma-split field count equals the header's, every other line being dropped
silently — each turned into one record of trimmed values keyed by the
trimmed header. -/
theorem claim9_parser_tolerance (t : String) :
    ((∃ e, parseCSV t = .error e) ↔ (jsLines t).length < 2)
    ∧ ∀ hs rs, parseCSV t = .ok (hs, rs) →
        hs = (jsSplit ((jsLines t).headD "") ',').map jsTrim
        ∧ rs = (((jsLines t).drop 1).filter
              (fun l => (jsSplit l ',').length == hs.length)).map
            (fun l => mkRecord hs (jsSplit l ',')) := by
  rcases h : jsLines t with _ | ⟨a, _ | ⟨b, rest⟩⟩
  · refine ⟨by simp [parseCSV, h], ?_⟩
    intro hs rs heq
    simp [parseCSV, h] at heq
  · refine ⟨by simp [parseCSV, h], ?_⟩
    intro hs rs heq
    simp [parseCSV, h] at heq
  · constructor
    · simp [parseCSV, h]
    · intro hs rs heq
      simp only [parseCSV, h] at heq
      obtain ⟨h1, h2⟩ := Prod.mk.injEq .. ▸ (Except.ok.injEq .. ▸ heq)
      subst h1
      subst h2
      exact ⟨by simp [h], by simp [h, parseRows_eq_filter_map]⟩

/-- C9 witness: the parser characterisation applied to a concrete blob with
one malformed line. -/
theorem claim9_parser_tolerance_witness :
    (["A", "B"] : List String) =
      (jsSplit ((jsLines "A,B\n1,2\nbad\n3,4").headD "") ',').map jsTrim
    ∧ ([[("A", "1"), ("B", "2")], [("A", "3"), ("B", "4")]] : List Record) =
        (((jsLines "A,B\n1,2\nbad\n3,4").drop 1).filter
            (fun l => (jsSplit l ',').length == (["A", "B"] : List String).length)).map
          (fun l => mkRecord ["A", "B"] (jsSplit l ',')) :=
  (claim9_parser_tolerance "A,B\n1,2\nbad\n3,4").2 ["A", "B"]
    [[("A", "1"), ("B", "2")], [("A", "3"), ("B", "4")]] (by rfl)

/-! ## Fisher–Yates shuffle: permutation facts -/

/-- Helper: prepending an element read from position `k` while planting `h`
there is a permutation of prepending `h`. -/
theorem cons_set_perm (t : List ℕ) (k y h : ℕ) (hg : t[k]? = some y) :
    (y :: t.set k h).Perm (h :: t) := by
  induction t generalizing k with
  | nil => simp at hg
  | cons b t' ih =>
    cases k with
    | zero =>
      simp at hg
      subst hg
      simpa using List.Perm.swap h b t'
    | succ k' =>
      simp at hg
      simp only [List.set_cons_succ]
      exact (List.Perm.swap b y (t'.set k' h)).trans
        (((ih k' hg).cons b).trans (List.Perm.swap h b t'))

/-- Writing each of two in-range cells' values into the other's position is
a permutation. -/
theorem double_set_perm (l : List ℕ) (i j x y : ℕ)
    (hi : l[i]? = some x) (hj : l[j]? = some y) :
    ((l.set i y).set j x).Perm l := by
  induction l generalizing i j with
  | nil => simp at hi
  | cons a t ih =>
    cases i with
    | zero =>
      simp at hi
      subst hi
      cases j with
      | zero => simp at hj; subst hj; simp
      | succ k =>
        simp at hj
        simpa using cons_set_perm t k y a hj
    | succ m =>
      simp at hi
      cases j with
      | zero =>
        simp at hj
        subst hj
        simpa using cons_set_perm t m x a hi
      | succ k =>
        simp at hj
        simpa using (ih m k hi hj).cons a

/-- A swap is a permutation. -/
theorem listSwap_perm (l : List ℕ) (i j : ℕ) : (listSwap l i j).Perm l := by
  unfold listSwap
  cases hi : l[i]? with
  | none => simp
  | some x =>
    cases hj : l[j]? with
    | none => simp
    | some y => exact double_set_perm l i j x y hi hj

/-- The Fisher–Yates loop permutes its input. -/
theorem fyLoop_perm (i : ℕ) :
    ∀ (seed : ℕ) (a : List ℕ), (fyLoop i seed a).Perm a := by
  induction i with
  | zero => intro seed a; exact List.Perm.refl a
  | succ n ih =>
    intro seed a
    exact (ih (lcgNext seed) _).trans (listSwap_perm a (n + 1) _)

/-- The seeded shuffle index is a permutation of `0..n-1`. -/
theorem shuffle_perm (n : ℕ) :
    (deterministicShuffleIndex n).Perm (List.range n) :=
  fyLoop_perm (n - 1) 1337 (List.range n)

/-- The shuffle index has length `n`. -/
theorem shuffle_length (n : ℕ) : (deterministicShuffleIndex n).length = n :=
  (shuffle_perm n).length_eq.trans (List.length_range n)

/-- The shuffle index has no duplicates. -/
theorem shuffle_nodup (n : ℕ) : (deterministicShuffleIndex n).Nodup :=
  ((shuffle_perm n).nodup_iff).mpr (List.nodup_range n)

/-- Membership in the shuffle index is the index range. -/
theorem shuffle_mem (n i : ℕ) : i ∈ deterministicShuffleIndex n ↔ i < n :=
  ((shuffle_perm n).mem_iff).trans List.mem_range

/-! ## Split-size facts -/

/-- The clamped fraction is nonnegative. -/
theorem clampQ_nonneg (f : ℚ) : 0 ≤ clampQ f (5/100) (9/10) :=
  le_min ((by norm_num : (0:ℚ) ≤ 5/100).trans (le_max_right _ _)) (by norm_num)

/-- The clamped fraction is at most one. -/
theorem clampQ_le_one (f : ℚ) : clampQ f (5/100) (9/10) ≤ 1 :=
  (min_le_right _ _).trans (by norm_num)

/-- On a nonempty dataset the evaluation partition fits inside it. -/
theorem nTestOf_le (n : ℕ) (f : ℚ) (hn : 1 ≤ n) : nTestOf n f ≤ n := by
  unfold nTestOf floorNN
  have hmul : (n:ℚ) * clampQ f (5/100) (9/10) ≤ (n:ℚ) := by
    nlinarith [clampQ_nonneg f, clampQ_le_one f, (Nat.cast_nonneg n : (0:ℚ) ≤ n)]
  have hfl : ⌊(n:ℚ) * clampQ f (5/100) (9/10)⌋ ≤ (n:ℤ) :=
    (Int.floor_le_floor hmul).trans (le_of_eq (Int.floor_natCast n))
  exact max_le hn (Int.toNat_le.mpr hfl)

/-- On a singleton index range the evaluation partition is everything. -/
theorem max_one_floor_clamp (x : ℚ) :
    max 1 (floorNN ((1:ℚ) * clampQ x (5/100) (9/10))) = 1 := by
  have h0 : ⌊clampQ x (5/100) (9/10)⌋ = 0 := by
    rw [Int.floor_eq_zero_iff]
    exact Set.mem_Ico.mpr
      ⟨clampQ_nonneg x, lt_of_le_of_lt (min_le_right _ _) (by norm_num)⟩
  simp [floorNN, h0]

/-- With one example the shuffle-mode test size is `1`. -/
theorem nTestOf_one (f : ℚ) : nTestOf 1 f = 1 := by
  simpa [nTestOf, Nat.cast_one] using max_one_floor_clamp f

/-- With one window the windowed-mode test size is `1`. -/
theorem nTestOf1_one (f : ℚ) : nTestOf1 1 f = 1 := by
  simpa [nTestOf1, Nat.cast_one] using max_one_floor_clamp (effSplit1 f)

/-- The assembled example count is the record count. -/
theorem prepN2_eq (st : DLState) : prepN2 st = st.raw.length := by
  simp [prepN2, prepFeats2]

/-! ## Claim theorems: the partitioner -/

/-- C4.  Whenever the shuffle-mode `prepareTensors` succeeds, its two index
partitions concatenate to the seeded shuffle index, which is a permutation
of `0..n-1` for `n` the record count; hence the partition sizes sum to `n`,
every index lies in exactly one partition, the feature partitions have the
same sizes, and the index partitions are identical for every run with the
same record count and fraction (the shuffle has no entropy source). -/
theorem claim4_partition_invariants (st : DLState) (f : ℚ) (out : PrepOut)
    (st' : DLState) (hok : prepareTensors2 st f = .ok (out, st')) :
    out.trainIdx ++ out.testIdx = deterministicShuffleIndex st.raw.length
    ∧ (out.trainIdx ++ out.testIdx).Perm (List.range st.raw.length)
    ∧ out.trainIdx.length + out.testIdx.length = st.raw.length
    ∧ (∀ i, i < st.raw.length →
        (i ∈ out.trainIdx ∧ i ∉ out.testIdx) ∨
          (i ∈ out.testIdx ∧ i ∉ out.trainIdx))
    ∧ out.Xtr.length = out.trainIdx.length
    ∧ out.Xte.length = out.testIdx.length
    ∧ (∀ st₂ out₂ st₂', st₂.raw.length = st.raw.length →
        prepareTensors2 st₂ f = .ok (out₂, st₂') →
        out₂.trainIdx = out.trainIdx ∧ out₂.testIdx = out.testIdx) := by
  have hraw : ¬st.raw = [] := by
    intro h
    rw [prepareTensors2, if_pos h] at hok
    exact absurd hok (by simp)
  rw [prepareTensors2_ok st f hraw] at hok
  obtain ⟨h1, h2⟩ := Prod.mk.inj (Except.ok.inj hok)
  subst h1
  subst h2
  have happ : trainIdx2 st f ++ testIdx2 st f =
      deterministicShuffleIndex (prepN2 st) :=
    List.take_append_drop _ _
  have hn := prepN2_eq st
  refine ⟨by simpa [out2, hn] using happ, ?_, ?_, ?_, by simp [out2, Xtr2], by simp [out2, Xte2], ?_⟩
  · have hp := shuffle_perm (prepN2 st)
    rw [← happ] at hp
    simpa [out2, hn] using hp
  · have := congrArg List.length happ
    simp only [List.length_append, shuffle_length] at this
    simpa [out2, hn] using this
  · intro i hi
    have hnd : (trainIdx2 st f ++ testIdx2 st f).Nodup := by
      rw [happ]; exact shuffle_nodup _
    obtain ⟨-, -, hdisj⟩ := List.nodup_append.mp hnd
    have hmem : i ∈ trainIdx2 st f ++ testIdx2 st f := by
      rw [happ, shuffle_mem, hn]; exact hi
    rcases List.mem_append.mp hmem with h | h
    · exact .inl ⟨by simpa [out2] using h, by simpa [out2] using fun h' => hdisj h h'⟩
    · exact .inr ⟨by simpa [out2] using h, by simpa [out2] using fun h' => hdisj h' h⟩
  · intro st₂ out₂ st₂' hlen hok₂
    have hraw₂ : ¬st₂.raw = [] := by
      intro h
      rw [prepareTensors2, if_pos h] at hok₂
      exact absurd hok₂ (by simp)
    rw [prepareTensors2_ok st₂ f hraw₂] at hok₂
    obtain ⟨h1, h2⟩ := Prod.mk.inj (Except.ok.inj hok₂)
    subst h1
    have hnn : prepN2 st₂ = prepN2 st := by rw [prepN2_eq, prepN2_eq, hlen]
    constructor <;> simp [out2, trainIdx2, testIdx2, nTrain2, hnn]

/-- C4 witness: the invariants at a concrete two-record dataset. -/
theorem claim4_partition_invariants_witness :
    (let stw : DLState :=
      { headers := ["Attrition"],
        raw := [[("Attrition", "Yes")], [("Attrition", "No")]],
        numCols := [], catKnown := [], labelKey := "Attrition",
        catCols := [], encoders := [], featureOrder := [], scaler := none };
    (out2 stw (1/5)).trainIdx ++ (out2 stw (1/5)).testIdx =
        deterministicShuffleIndex stw.raw.length
      ∧ ((out2 stw (1/5)).trainIdx ++ (out2 stw (1/5)).testIdx).Perm
          (List.range stw.raw.length)
      ∧ (out2 stw (1/5)).trainIdx.length + (out2 stw (1/5)).testIdx.length =
          stw.raw.length
      ∧ (∀ i, i < stw.raw.length →
          (i ∈ (out2 stw (1/5)).trainIdx ∧ i ∉ (out2 stw (1/5)).testIdx) ∨
            (i ∈ (out2 stw (1/5)).testIdx ∧ i ∉ (out2 stw (1/5)).trainIdx))
      ∧ (out2 stw (1/5)).Xtr.length = (out2 stw (1/5)).trainIdx.length
      ∧ (out2 stw (1/5)).Xte.length = (out2 stw (1/5)).testIdx.length
      ∧ (∀ st₂ out₂ st₂', st₂.raw.length = stw.raw.length →
          prepareTensors2 st₂ (1/5) = .ok (out₂, st₂') →
          out₂.trainIdx = (out2 stw (1/5)).trainIdx ∧
            out₂.testIdx = (out2 stw (1/5)).testIdx)) :=
  claim4_partition_invariants _ (1/5) _ _
    (prepareTensors2_ok _ (1/5) (by decide))

/-- C5 (amended).  Neither loader checks for a too-small dataset: the only
failure of either `prepareTensors` is `"Dataset not loaded."` on an empty
record list; on any nonempty record list both succeed, and with a single
example (shuffle mode) or a single window (windowed mode) they return an
**empty training partition** rather than rejecting the configuration. -/
theorem claim5_amended_no_config_error (st : DLState) (f : ℚ) (seqLen : ℤ) :
    (st.raw = [] →
      prepareTensors2 st f = .error "Dataset not loaded."
      ∧ prepareTensors1 st seqLen f = .error "Dataset not loaded.")
    ∧ (¬st.raw = [] →
      prepareTensors2 st f = .ok (out2 st f, state2 st f)
      ∧ prepareTensors1 st seqLen f = .ok (out1 st seqLen f, state1 st seqLen f))
    ∧ (st.raw.length = 1 →
      (out2 st f).trainIdx = [] ∧ (out2 st f).Xtr = []
      ∧ (out2 st f).testIdx.length = 1)
    ∧ (prepN1 st seqLen = 1 →
      (out1 st seqLen f).Xtr = [] ∧ (out1 st seqLen f).Xte.length = 1) := by
  refine ⟨fun h => ⟨?_, ?_⟩, fun h => ⟨prepareTensors2_ok st f h,
    prepareTensors1_ok st seqLen f h⟩, fun h1 => ?_, fun h1 => ?_⟩
  · rw [prepareTensors2, if_pos h]
  · rw [prepareTensors1, if_pos h]
  · have hn : prepN2 st = 1 := by rw [prepN2_eq, h1]
    have ht : nTrain2 st f = 0 := by simp [nTrain2, hn, nTestOf_one]
    exact ⟨by simp [out2, trainIdx2, ht], by simp [out2, Xtr2, trainIdx2, ht],
      by simp [out2, testIdx2, ht, shuffle_length, hn]⟩
  · have ht : nTrain1 st seqLen f = 0 := by simp [nTrain1, h1, nTestOf1_one]
    exact ⟨by simp [out1, Xtr1, ht],
      by simpa [out1, Xte1, ht] using h1⟩

/-- C5 witness: the amended statement at a concrete one-record dataset. -/
theorem claim5_amended_no_config_error_witness :
    (let stw : DLState :=
      { headers := ["Attrition"], raw := [[("Attrition", "Yes")]],
        numCols := [], catKnown := [], labelKey := "Attrition",
        catCols := [], encoders := [], featureOrder := [], scaler := none };
    (stw.raw = [] →
      prepareTensors2 stw (1/5) = .error "Dataset not loaded."
      ∧ prepareTensors1 stw 1 (1/5) = .error "Dataset not loaded.")
    ∧ (¬stw.raw = [] →
      prepareTensors2 stw (1/5) = .ok (out2 stw (1/5), state2 stw (1/5))
      ∧ prepareTensors1 stw 1 (1/5) = .ok (out1 stw 1 (1/5), state1 stw 1 (1/5)))
    ∧ (stw.raw.length = 1 →
      (out2 stw (1/5)).trainIdx = [] ∧ (out2 stw (1/5)).Xtr = []
      ∧ (out2 stw (1/5)).testIdx.length = 1)
    ∧ (prepN1 stw 1 = 1 →
      (out1 stw 1 (1/5)).Xtr = [] ∧ (out1 stw 1 (1/5)).Xte.length = 1)) :=
  claim5_amended_no_config_error _ (1/5) 1

/-- C5 counterexample: on a one-record dataset the shuffle-mode
`prepareTensors` does not fail at all — it succeeds with an **empty**
training partition (`trainIdx = []`, `Xtr = []`) and puts the single example
into the evaluation partition, contradicting the claimed `ConfigError` for
`n < 2`. -/
theorem claim5_counterexample :
    (prepareTensors2 oneRecState (1/5)).toOption.map
      (fun os => (os.1.trainIdx, os.1.Xtr, os.1.testIdx)) =
      some ([], [], [0]) := by
  rw [prepareTensors2_ok _ _ (by decide)]
  have hn : prepN2 oneRecState = 1 := by decide
  have hs : deterministicShuffleIndex 1 = [0] := by decide
  have ht : ∀ q : ℚ, nTrain2 oneRecState q = 0 := fun q => by
    simp [nTrain2, hn, nTestOf_one]
  simp [out2, trainIdx2, testIdx2, Xtr2, ht, hn, hs, Except.toOption]

/-! ## Claim theorems: the frame of `prepareTensors` -/

/-- C10.  Neither `prepareTensors` variant changes the loaded records or the
header: whenever a call succeeds, the new loader state keeps `raw` (contents
and order), `headers`, and the schema fields exactly as loaded, and only the
`encoders`, `featureOrder` and `scaler` fields are replaced (with the values
freshly fitted during the call). -/
theorem claim10_state_frame (st st' : DLState) (f : ℚ) :
    (∀ out, prepareTensors2 st f = .ok (out, st') →
      st'.headers = st.headers ∧ st'.raw = st.raw ∧ st'.catCols = st.catCols
      ∧ st'.numCols = st.numCols ∧ st'.catKnown = st.catKnown
      ∧ st'.labelKey = st.labelKey
      ∧ st'.encoders = prepEncs2 st
      ∧ st'.featureOrder = featureOrderOf st.numCols (prepEncs2 st)
      ∧ st'.scaler = some (fitScaler (Xtr2 st f)))
    ∧ (∀ seqLen out, prepareTensors1 st seqLen f = .ok (out, st') →
      st'.headers = st.headers ∧ st'.raw = st.raw ∧ st'.catCols = st.catCols
      ∧ st'.numCols = st.numCols ∧ st'.catKnown = st.catKnown
      ∧ st'.labelKey = st.labelKey
      ∧ st'.encoders = prepEncs1 st
      ∧ st'.featureOrder = featureOrderOf st.numCols (prepEncs1 st)
      ∧ st'.scaler = some (fitScalers1 (Xtr1 st seqLen f))) := by
  constructor
  · intro out hok
    have hraw : ¬st.raw = [] := by
      intro h
      rw [prepareTensors2, if_pos h] at hok
      exact absurd hok (by simp)
    rw [prepareTensors2_ok st f hraw] at hok
    obtain ⟨-, h2⟩ := Prod.mk.inj (Except.ok.inj hok)
    subst h2
    simp [state2]
  · intro seqLen out hok
    have hraw : ¬st.raw = [] := by
      intro h
      rw [prepareTensors1, if_pos h] at hok
      exact absurd hok (by simp)
    rw [prepareTensors1_ok st seqLen f hraw] at hok
    obtain ⟨-, h2⟩ := Prod.mk.inj (Except.ok.inj hok)
    subst h2
    simp [state1]

/-- C10 witness: the frame condition at a concrete one-record dataset. -/
theorem claim10_state_frame_witness :
    (let stw : DLState :=
      { headers := ["Attrition"], raw := [[("Attrition", "Yes")]],
        numCols := [], catKnown := [], labelKey := "Attrition",
        catCols := [], encoders := [], featureOrder := [], scaler := none };
    (state2 stw (1/5)).headers = stw.headers
    ∧ (state2 stw (1/5)).raw = stw.raw
    ∧ (state2 stw (1/5)).catCols = stw.catCols
    ∧ (state2 stw (1/5)).numCols = stw.numCols
    ∧ (state2 stw (1/5)).catKnown = stw.catKnown
    ∧ (state2 stw (1/5)).labelKey = stw.labelKey
    ∧ (state2 stw (1/5)).encoders = prepEncs2 stw
    ∧ (state2 stw (1/5)).featureOrder = featureOrderOf stw.numCols (prepEncs2 stw)
    ∧ (state2 stw (1/5)).scaler = some (fitScaler (Xtr2 stw (1/5)))) :=
  (claim10_state_frame _ _ (1/5)).1 _ (prepareTensors2_ok _ (1/5) (by decide))

/-! ## Claim theorems: partition sizes -/

/-- On a nonempty window range the windowed evaluation partition fits. -/
theorem nTestOf1_le (n : ℕ) (f : ℚ) (hn : 1 ≤ n) : nTestOf1 n f ≤ n := by
  unfold nTestOf1 floorNN
  have hmul : (n:ℚ) * clampQ (effSplit1 f) (5/100) (9/10) ≤ (n:ℚ) := by
    nlinarith [clampQ_nonneg (effSplit1 f), clampQ_le_one (effSplit1 f),
      (Nat.cast_nonneg n : (0:ℚ) ≤ n)]
  have hfl : ⌊(n:ℚ) * clampQ (effSplit1 f) (5/100) (9/10)⌋ ≤ (n:ℤ) :=
    (Int.floor_le_floor hmul).trans (le_of_eq (Int.floor_natCast n))
  exact max_le hn (Int.toNat_le.mpr hfl)

/-- C3 (amended).  Whenever a loader succeeds on a nonempty example range its
evaluation partition has exactly `max(1, ⌊n·clamp(f', 0.05, 0.9)⌋)` examples
and the training partition the remaining `n` minus that many — where in
shuffle mode `n` is the record count and `f'` is the configured fraction
itself, while in windowed mode `n` is the window count and
`f' = f/100 || f` (the windowed loader divides the fraction by `100` again
before clamping). -/
theorem claim3_amended_split_sizes (st : DLState) (f : ℚ) (seqLen : ℤ) :
    (∀ out st', prepareTensors2 st f = .ok (out, st') → 1 ≤ st.raw.length →
      out.Xte.length =
          max 1 (floorNN ((st.raw.length : ℚ) * clampQ f (5/100) (9/10)))
        ∧ out.Xtr.length = st.raw.length - out.Xte.length)
    ∧ (∀ out st', prepareTensors1 st seqLen f = .ok (out, st') →
        1 ≤ prepN1 st seqLen →
      out.Xte.length =
          max 1 (floorNN ((prepN1 st seqLen : ℚ) *
            clampQ (effSplit1 f) (5/100) (9/10)))
        ∧ out.Xtr.length = prepN1 st seqLen - out.Xte.length) := by
  constructor
  · intro out st' hok hn
    have hraw : ¬st.raw = [] := by
      intro h
      rw [prepareTensors2, if_pos h] at hok
      exact absurd hok (by simp)
    rw [prepareTensors2_ok st f hraw] at hok
    obtain ⟨h1, -⟩ := Prod.mk.inj (Except.ok.inj hok)
    subst h1
    have hpn : prepN2 st = st.raw.length := prepN2_eq st
    have hle : nTestOf (prepN2 st) f ≤ prepN2 st :=
      nTestOf_le _ f (by omega)
    have hte : (out2 st f).Xte.length = nTestOf (prepN2 st) f := by
      simp only [out2, Xte2, testIdx2, List.length_map, List.length_drop,
        shuffle_length, nTrain2]
      omega
    refine ⟨?_, ?_⟩
    · rw [hte, ← hpn]; rfl
    · simp only [out2, Xtr2, trainIdx2, List.length_map, List.length_take,
        shuffle_length, nTrain2] at *
      omega
  · intro out st' hok hn
    have hraw : ¬st.raw = [] := by
      intro h
      rw [prepareTensors1, if_pos h] at hok
      exact absurd hok (by simp)
    rw [prepareTensors1_ok st seqLen f hraw] at hok
    obtain ⟨h1, -⟩ := Prod.mk.inj (Except.ok.inj hok)
    subst h1
    have hle : nTestOf1 (prepN1 st seqLen) f ≤ prepN1 st seqLen :=
      nTestOf1_le _ f hn
    have hte : (out1 st seqLen f).Xte.length = nTestOf1 (prepN1 st seqLen) f := by
      simp only [out1, Xte1, List.length_drop, nTrain1, prepN1] at hle ⊢
      omega
    refine ⟨?_, ?_⟩
    · rw [hte]; rfl
    · simp only [out1, Xtr1, List.length_take, nTrain1, prepN1] at hte hle hn ⊢
      omega

/-- C3 witness: the amended size formulas at a concrete two-record dataset
in shuffle mode and a concrete three-record dataset in windowed mode. -/
theorem claim3_amended_split_sizes_witness :
    (let stw : DLState :=
      { headers := ["Attrition"],
        raw := [[("Attrition", "Yes")], [("Attrition", "No")]],
        numCols := [], catKnown := [], labelKey := "Attrition",
        catCols := [], encoders := [], featureOrder := [], scaler := none };
    (out2 stw (1/5)).Xte.length =
        max 1 (floorNN ((stw.raw.length : ℚ) * clampQ (1/5) (5/100) (9/10)))
      ∧ (out2 stw (1/5)).Xtr.length = stw.raw.length - (out2 stw (1/5)).Xte.length) :=
  (claim3_amended_split_sizes _ (1/5) 1).1 _ _
    (prepareTensors2_ok _ (1/5) (by decide)) (by decide)

/-- C3 counterexample: three records, window length `1` (so `n = 3`
windows), configured fraction `0.9`.  The claim's formula demands
`max(1, ⌊3 × clamp(0.9)⌋) = 2` evaluation examples, but the windowed loader
divides the fraction by `100` first (`0.9/100 = 0.009`, clamped up to
`0.05`) and returns an evaluation partition of size `1`. -/
theorem claim3_counterexample :
    (prepareTensors1 threeRecState 1 (9/10)).toOption.map
        (fun os => os.1.Xte.length) = some 1
    ∧ max 1 (floorNN ((3:ℚ) * clampQ (9/10) (5/100) (9/10))) = 2 := by
  constructor
  · rw [prepareTensors1_ok _ 1 (9/10) (by decide)]
    have hpn : prepN1 threeRecState 1 = 3 := by decide
    have h1 : nTestOf1 3 (9/10) = 1 := by
      norm_num [nTestOf1, effSplit1, clampQ, floorNN, min_def, max_def]
    have ht : nTrain1 threeRecState 1 (9/10) = 2 := by
      simp [nTrain1, hpn, h1]
    have hw : (wins1 threeRecState 1).1.length = 3 := hpn
    simp [Except.toOption, out1, Xte1, ht, hw]
  · have h2 : ⌊(3:ℚ) * clampQ (9/10) (5/100) (9/10)⌋ = 2 := by
      norm_num [clampQ, min_def, max_def]
    simp [floorNN, h2]

/-! ## Claim theorems: the numeric scaler -/

/-- Helper: shifting by `m` and dividing by `s` maps a sum as expected. -/
theorem listShiftScaleSum (l : List ℝ) (m s : ℝ) :
    (l.map (fun x => (x - m) / s)).sum = (l.sum - l.length * m) / s := by
  induction l with
  | nil => simp
  | cons a t ih =>
    simp only [List.map_cons, List.sum_cons, List.length_cons, ih]
    push_cast
    ring

/-- Helper: the sum of squares of a shifted, scaled column. -/
theorem listShiftScaleSqSum (l : List ℝ) (m s : ℝ) :
    (l.map (fun x => ((x - m) / s) * ((x - m) / s))).sum =
      ((l.map (fun v => v * v)).sum - 2 * m * l.sum + l.length * (m * m))
        / (s * s) := by
  induction l with
  | nil => simp
  | cons a t ih =>
    simp only [List.map_cons, List.sum_cons, List.length_cons, ih]
    push_cast
    ring

/-- Casting a column to the reals preserves its length. -/
theorem castList_length (l : List ℚ) : (castList l).length = l.length := by
  simp [castList]

/-- Casting a column to the reals preserves its sum. -/
theorem castList_sum (l : List ℚ) : (castList l).sum = ((l.sum : ℚ) : ℝ) := by
  induction l with
  | nil => simp [castList]
  | cons a t ih =>
    simp only [castList, List.map_cons, List.sum_cons] at ih ⊢
    rw [ih]
    push_cast
    ring

/-- Casting a column to the reals preserves its sum of squares. -/
theorem castList_sq_sum (l : List ℚ) :
    ((castList l).map (fun v => v * v)).sum =
      (((l.map (fun v => v * v)).sum : ℚ) : ℝ) := by
  induction l with
  | nil => simp [castList]
  | cons a t ih =>
    simp only [castList, List.map_cons, List.sum_cons] at ih ⊢
    rw [ih]
    push_cast
    ring

/-- The stored radicand is strictly positive (the epsilon floor). -/
theorem stdSqQ_pos (l : List ℚ) : 0 < (stdSqQ l : ℝ) := by
  have h : (0:ℚ) < stdSqQ l :=
    lt_of_lt_of_le (by norm_num [epsQ]) (le_max_left _ _)
  exact_mod_cast h

/-- The stored standard deviation is strictly positive. -/
theorem sqrt_stdSq_pos (l : List ℚ) : 0 < Real.sqrt (stdSqQ l : ℝ) :=
  Real.sqrt_pos.mpr (stdSqQ_pos l)

/-- The real value of the rational column mean. -/
theorem meanQ_cast (l : List ℚ) :
    ((meanQ l : ℚ) : ℝ) = ((l.sum : ℚ) : ℝ) / (l.length : ℝ) := by
  unfold meanQ
  push_cast
  ring

/-- A standardised column always has mean exactly zero. -/
theorem scaled_mean_zero (l : List ℚ) (h : l ≠ []) :
    meanR (scaledCol l) = 0 := by
  have hn : (l.length : ℝ) ≠ 0 := by
    exact_mod_cast Nat.cast_ne_zero.mpr (fun h0 => h (List.length_eq_zero.mp h0))
  rw [meanR, scaledCol, listShiftScaleSum, castList_sum, castList_length,
    meanQ_cast]
  have hz : ((l.sum : ℚ) : ℝ) -
      (l.length : ℝ) * (((l.sum : ℚ) : ℝ) / (l.length : ℝ)) = 0 := by
    field_simp
  rw [hz]
  simp

/-- Helper: the division algebra behind the scaled-variance computation. -/
theorem shiftVarAlg (A S n q : ℝ) (hn : n ≠ 0) (hq : q ≠ 0) :
    (A - 2 * (S / n) * S + n * ((S / n) * (S / n))) / q / n =
      (A / n - (S / n) * (S / n)) / q := by
  field_simp
  ring

/-- Helper: composing a map with squaring. -/
theorem map_sq_map (L : List ℝ) (f : ℝ → ℝ) :
    ((L.map f).map (fun v => v * v)).sum = (L.map (fun x => f x * f x)).sum := by
  rw [List.map_map]; rfl

/-- The variance of a standardised column is the raw variance divided by the
floored radicand. -/
theorem scaled_var_eq (l : List ℚ) (h : l ≠ []) :
    varR (scaledCol l) = (varQ l : ℝ) / (stdSqQ l : ℝ) := by
  have hn : (l.length : ℝ) ≠ 0 := by
    exact_mod_cast Nat.cast_ne_zero.mpr (fun h0 => h (List.length_eq_zero.mp h0))
  have hs2 : Real.sqrt (stdSqQ l : ℝ) * Real.sqrt (stdSqQ l : ℝ) = (stdSqQ l : ℝ) :=
    Real.mul_self_sqrt (le_of_lt (stdSqQ_pos l))
  have hsne : (stdSqQ l : ℝ) ≠ 0 := ne_of_gt (stdSqQ_pos l)
  unfold varR
  rw [scaled_mean_zero l h, scaledCol, map_sq_map, listShiftScaleSqSum,
    castList_sq_sum, castList_sum, castList_length, List.length_map,
    castList_length, meanQ_cast]
  have hv : ((varQ l : ℚ) : ℝ) =
      (((l.map (fun v => v * v)).sum : ℚ) : ℝ) / (l.length : ℝ)
        - (((l.sum : ℚ) : ℝ) / (l.length : ℝ)) *
            (((l.sum : ℚ) : ℝ) / (l.length : ℝ)) := by
    unfold varQ
    push_cast [meanQ_cast]
    ring
  rw [hs2, hv]
  simp only [mul_zero, sub_zero]
  exact shiftVarAlg _ _ _ _ hn hsne

/-- A constant column standardises to the all-zero column. -/
theorem scaled_const_zero (l : List ℚ) (h : l ≠ []) (c : ℚ)
    (hc : ∀ x ∈ l, x = c) : ∀ z ∈ scaledCol l, z = 0 := by
  have hn : (l.length : ℚ) ≠ 0 := by
    exact_mod_cast Nat.cast_ne_zero.mpr (fun h0 => h (List.length_eq_zero.mp h0))
  have hsum : l.sum = l.length * c := by
    have hrep := List.eq_replicate_of_mem hc
    conv_lhs => rw [hrep]
    rw [List.sum_replicate, nsmul_eq_mul]
  have hm : meanQ l = c := by
    rw [meanQ, hsum, mul_comm, mul_div_assoc, div_self hn, mul_one]
  intro z hz
  obtain ⟨y, hy, rfl⟩ := List.mem_map.mp hz
  obtain ⟨x, hx, rfl⟩ := List.mem_map.mp hy
  rw [hc x hx, hm]
  simp

/-- Entry `j` of the fitted scaler is exactly the closed-form column mean
and floored radicand of column `j`. -/
theorem fitScaler_get (X : List (List ℚ)) (j : ℕ) (hX : ¬X = [])
    (hj : j < (X.headD []).length) :
    (fitScaler X)[j]? = some (meanQ (colOf X j), stdSqQ (colOf X j)) := by
  have hlen : X.length ≠ 0 := fun h0 => hX (List.length_eq_zero.mp h0)
  have hcol : (colOf X j).length = X.length := by simp [colOf]
  unfold fitScaler
  rw [List.getElem?_map, List.getElem?_range hj]
  simp only [Option.map_some']
  rw [if_neg hlen]
  simp only [stdSqQ, varQ, meanQ, hcol]

/-- Helper: reading a `mapIdx` result at an in-range position. -/
theorem mapIdx_getD (r : List ℚ) (g : ℕ → ℚ → ℝ) (j : ℕ) (hj : j < r.length) :
    (r.mapIdx g).getD j 0 = g j (r.getD j 0) := by
  rw [List.getD_eq_getElem?_getD, List.getD_eq_getElem?_getD]
  rw [List.getElem?_eq_getElem (by simpa using hj), List.getElem?_eq_getElem hj]
  simp [List.getElem_mapIdx]

/-- On a rectangular feature matrix, column `j` of the row-wise
`#applyScaler` output is exactly column `j` standardised by its own fitted
statistics. -/
theorem applyScaler_col (X : List (List ℚ)) (j d : ℕ)
    (hd : ∀ r ∈ X, r.length = d) (hj : j < d) (hX : ¬X = [])
    (hhead : (X.headD []).length = d) :
    colOfR (applyScalerR (fitScaler X) X) j = scaledCol (colOf X j) := by
  have hget : (fitScaler X)[j]? = some (meanQ (colOf X j), stdSqQ (colOf X j)) :=
    fitScaler_get X j hX (by rw [hhead]; exact hj)
  have hgetD : (fitScaler X).getD j (0, 1) =
      (meanQ (colOf X j), stdSqQ (colOf X j)) := by
    rw [List.getD_eq_getElem?_getD, hget]
    rfl
  unfold colOfR applyScalerR scaledCol castList colOf
  rw [List.map_map, List.map_map, List.map_map]
  apply List.map_congr_left
  intro r hr
  simp only [Function.comp_apply]
  unfold applyScalerRow cellAt
  rw [mapIdx_getD r _ j (by rw [hd r hr]; exact hj), hgetD]
  simp [colOf, cellAt]

/-- C6 (amended).  The scaler is fitted on the training slice only and the
same fitted state standardises both partitions (last conjunct); each fitted
entry is the column's population mean and the floored radicand
`max(1e-9, E[x²]-E[x]²)`; every standardised training column has mean
exactly `0`; a column whose variance reaches the `1e-9` floor has
standardised variance (and standard deviation) exactly `1`; and a constant
column standardises to exactly `0`.  (For `0 < var < 1e-9` the standardised
deviation is `sqrt(var/1e-9) < 1`, which is why the claim's "not all equal"
premise had to be strengthened to `var ≥ ε`.) -/
theorem claim6_amended_scaler (col : List ℚ) (h : col ≠ []) :
    meanR (scaledCol col) = 0
    ∧ (epsQ ≤ varQ col →
        varR (scaledCol col) = 1 ∧ Real.sqrt (varR (scaledCol col)) = 1)
    ∧ (∀ c, (∀ x ∈ col, x = c) → ∀ z ∈ scaledCol col, z = 0)
    ∧ (∀ X j, ¬X = [] → j < (X.headD []).length →
        (fitScaler X)[j]? = some (meanQ (colOf X j), stdSqQ (colOf X j)))
    ∧ (∀ X j d, (∀ r ∈ X, r.length = d) → j < d → ¬X = [] →
        (X.headD []).length = d →
        colOfR (applyScalerR (fitScaler X) X) j = scaledCol (colOf X j))
    ∧ (∀ st f out st', prepareTensors2 st f = .ok (out, st') →
        out.scaler = fitScaler out.Xtr ∧ st'.scaler = some (fitScaler out.Xtr)) := by
  refine ⟨scaled_mean_zero col h, fun hv => ?_,
    fun c hc => scaled_const_zero col h c hc,
    fun X j hX hj => fitScaler_get X j hX hj,
    fun X j d hd hj hX hh => applyScaler_col X j d hd hj hX hh, ?_⟩
  · have hstd : stdSqQ col = varQ col := max_eq_right hv
    have hne : ((varQ col : ℚ) : ℝ) ≠ 0 := by
      have hp : (0:ℚ) < varQ col := lt_of_lt_of_le (by norm_num [epsQ]) hv
      exact_mod_cast ne_of_gt hp
    have h1 : varR (scaledCol col) = 1 := by
      rw [scaled_var_eq col h, hstd, div_self hne]
    exact ⟨h1, by rw [h1]; exact Real.sqrt_one⟩
  · intro st f out st' hok
    have hraw : ¬st.raw = [] := by
      intro h0
      rw [prepareTensors2, if_pos h0] at hok
      exact absurd hok (by simp)
    rw [prepareTensors2_ok st f hraw] at hok
    obtain ⟨h1, h2⟩ := Prod.mk.inj (Except.ok.inj hok)
    subst h1
    subst h2
    exact ⟨rfl, rfl⟩

/-- C6 witness: the amended scaler invariants at the concrete training
column `[0, 2]`. -/
theorem claim6_amended_scaler_witness :
    (([0, 2] : List ℚ) ≠ [])
    ∧ (meanR (scaledCol [0, 2]) = 0
      ∧ (epsQ ≤ varQ [0, 2] →
          varR (scaledCol [0, 2]) = 1 ∧ Real.sqrt (varR (scaledCol [0, 2])) = 1)
      ∧ (∀ c, (∀ x ∈ ([0, 2] : List ℚ), x = c) → ∀ z ∈ scaledCol [0, 2], z = 0)
      ∧ (∀ X j, ¬X = [] → j < (X.headD []).length →
          (fitScaler X)[j]? = some (meanQ (colOf X j), stdSqQ (colOf X j)))
      ∧ (∀ X j d, (∀ r ∈ X, r.length = d) → j < d → ¬X = [] →
          (X.headD []).length = d →
          colOfR (applyScalerR (fitScaler X) X) j = scaledCol (colOf X j))
      ∧ (∀ st f out st', prepareTensors2 st f = .ok (out, st') →
          out.scaler = fitScaler out.Xtr
          ∧ st'.scaler = some (fitScaler out.Xtr))) :=
  ⟨by simp, claim6_amended_scaler [0, 2] (by simp)⟩

/-- C6 counterexample: the training column `[0, 1/100000]` has two unequal
values, yet its standardised variance is `1/40` and its standardised
standard deviation is below `1/2` — nowhere near the claimed `1` — because
its raw variance `2.5e-11` sits under the `1e-9` floor. -/
theorem claim6_counterexample :
    ((0 : ℚ) ∈ colOf [[0], [1/100000]] 0)
    ∧ ((1/100000 : ℚ) ∈ colOf [[0], [1/100000]] 0)
    ∧ (0 : ℚ) ≠ 1/100000
    ∧ varR (scaledCol (colOf [[0], [1/100000]] 0)) = 1/40
    ∧ Real.sqrt (varR (scaledCol (colOf [[0], [1/100000]] 0))) < 1/2 := by
  have hcol : colOf [[0], [1/100000]] 0 = [0, 1/100000] := by
    norm_num [colOf, cellAt]
  have hvar : varQ [0, 1/100000] = 1/40000000000 := by
    norm_num [varQ, meanQ]
  have hstd : stdSqQ [0, 1/100000] = epsQ :=
    max_eq_left (by norm_num [epsQ, hvar])
  have h40 : varR (scaledCol (colOf [[0], [1/100000]] 0)) = 1/40 := by
    rw [hcol, scaled_var_eq _ (by simp), hvar, hstd]
    norm_num [epsQ]
  refine ⟨by rw [hcol]; simp, by rw [hcol]; simp, by norm_num, h40, ?_⟩
  rw [h40]
  exact (Real.sqrt_lt' (by norm_num)).mpr (by norm_num)

end HRA
